import Mathlib

/-!
Verification of the real-time control core of `conquertheuniverse`:
ground-plane raycasting, manual camera rotation, volumetric selection,
the command bus, golden-angle formation assignment, obstacle projection
and the per-unit steering update.  Numbers are modelled by real numbers;
THREE.js vectors by a record of three reals.
-/

attribute [local instance] Classical.propDecidable

noncomputable section

namespace RTS

/-- Shallow embedding of `THREE.Vector3`. -/
@[ext] structure Vec3 where
  x : ℝ
  y : ℝ
  z : ℝ

namespace Vec3

def zero : Vec3 := ⟨0, 0, 0⟩

def add (a b : Vec3) : Vec3 := ⟨a.x + b.x, a.y + b.y, a.z + b.z⟩

def sub (a b : Vec3) : Vec3 := ⟨a.x - b.x, a.y - b.y, a.z - b.z⟩

/-- `v.multiplyScalar k`. -/
def smul (k : ℝ) (v : Vec3) : Vec3 := ⟨k * v.x, k * v.y, k * v.z⟩

def dot (a b : Vec3) : ℝ := a.x * b.x + a.y * b.y + a.z * b.z

def lengthSq (v : Vec3) : ℝ := v.x ^ 2 + v.y ^ 2 + v.z ^ 2

/-- `v.length()`. -/
def length (v : Vec3) : ℝ := Real.sqrt v.lengthSq

/-- `a.distanceTo b`. -/
def dist (a b : Vec3) : ℝ := (a.sub b).length

/-- `v.normalize()` in THREE.js divides by `length() || 1`. -/
def normalizeJS (v : Vec3) : Vec3 :=
  smul (1 / (if v.length = 0 then 1 else v.length)) v

theorem length_nonneg (v : Vec3) : 0 ≤ v.length := Real.sqrt_nonneg _

theorem lengthSq_nonneg (v : Vec3) : 0 ≤ v.lengthSq := by
  have hx := sq_nonneg v.x
  have hy := sq_nonneg v.y
  have hz := sq_nonneg v.z
  simp only [lengthSq]; linarith

theorem length_zero : (zero).length = 0 := by
  simp [length, lengthSq, zero]

theorem length_smul (k : ℝ) (v : Vec3) : (smul k v).length = |k| * v.length := by
  simp only [length, smul, lengthSq]
  have h : (k * v.x) ^ 2 + (k * v.y) ^ 2 + (k * v.z) ^ 2
      = k ^ 2 * (v.x ^ 2 + v.y ^ 2 + v.z ^ 2) := by ring
  rw [h, Real.sqrt_mul (sq_nonneg k), Real.sqrt_sq_eq_abs]

theorem smul_zero_vec (k : ℝ) : smul k zero = zero := by
  simp [smul, zero]

theorem length_eq_zero_iff (v : Vec3) : v.length = 0 ↔ v = zero := by
  constructor
  · intro h
    have h0 : v.lengthSq = 0 := by
      have h1 : v.lengthSq ≤ 0 := Real.sqrt_eq_zero'.mp h
      exact le_antisymm h1 v.lengthSq_nonneg
    have hx := sq_nonneg v.x
    have hy := sq_nonneg v.y
    have hz := sq_nonneg v.z
    simp only [lengthSq] at h0
    have hx0 : v.x = 0 := by nlinarith
    have hy0 : v.y = 0 := by nlinarith
    have hz0 : v.z = 0 := by nlinarith
    ext <;> simp [hx0, hy0, hz0, zero]
  · intro h; rw [h]; exact length_zero

end Vec3

/-- The constant `UP = (0, 1, 0)` of `math.js`. -/
def UP : Vec3 := ⟨0, 1, 0⟩

/-- `raycastGroundPlane(origin, dir)` from `src/systems/math.js`:
intersect a ray with the infinite plane `y = 0`. -/
def raycastGroundPlane (origin dir : Vec3) : Option Vec3 :=
  let denom := dir.dot UP
  if |denom| < 1e-6 then none
  else
    let t := -origin.y / denom
    if t < 0 then none
    else some (origin.add (Vec3.smul t dir))

/-- Claim C5: the ground-plane raycast hits `(0,0,0)` from origin `(0,5,0)`
with direction `(0,-1,0)`, returns none for direction `(0,1,0)`, and in
general returns none exactly when the direction is near-parallel to the
plane (`|dir.dot UP| < 1e-6`) or the intersection parameter
`-origin.y / (dir.dot UP)` is negative. -/
theorem raycastGroundPlane_spec :
    raycastGroundPlane ⟨0, 5, 0⟩ ⟨0, -1, 0⟩ = some ⟨0, 0, 0⟩ ∧
    raycastGroundPlane ⟨0, 5, 0⟩ ⟨0, 1, 0⟩ = none ∧
    ∀ origin dir : Vec3,
      (raycastGroundPlane origin dir = none ↔
        |dir.dot UP| < 1e-6 ∨ -origin.y / dir.dot UP < 0) := by
  refine ⟨?_, ?_, ?_⟩
  · simp only [raycastGroundPlane, Vec3.dot, UP]
    norm_num [Vec3.add, Vec3.smul]
  · simp only [raycastGroundPlane, Vec3.dot, UP]
    norm_num
  · intro origin dir
    simp only [raycastGroundPlane]
    split_ifs with h1 h2
    · simp [h1]
    · simp [h1, h2]
    · simp [h1, h2]

/-! ### Manual camera rotation (Ctrl + right mouse button)

From `InputSystem.onPointerMove`: while `_rotateActive`, a drag delta
`(dx, dy)` updates the snapshot spherical coordinates by
`theta -= dx * speed`, `phi -= dy * speed`, and `phi` is clamped to
`[eps, PI - eps]` with `eps = 0.001`; `_rotateSpeed = 0.006`. -/

/-- `THREE.MathUtils.clamp(value, lo, hi) = Math.max(lo, Math.min(hi, value))`. -/
def clamp (value lo hi : ℝ) : ℝ := max lo (min hi value)

def rotateSpeed : ℝ := 0.006

def rotateEps : ℝ := 0.001

/-- Yaw/pitch part of the `_spherical` snapshot. -/
structure SphericalAngles where
  theta : ℝ
  phi : ℝ

/-- One manual-rotate drag step of `InputSystem.onPointerMove`. -/
def rotateStep (s : SphericalAngles) (d : ℝ × ℝ) : SphericalAngles :=
  { theta := s.theta - d.1 * rotateSpeed
    phi := clamp (s.phi - d.2 * rotateSpeed) rotateEps (Real.pi - rotateEps) }

/-- A whole drag gesture: the drag deltas applied in order. -/
def rotateRun (s : SphericalAngles) (ds : List (ℝ × ℝ)) : SphericalAngles :=
  ds.foldl rotateStep s

theorem rotateStep_phi_mem (s : SphericalAngles) (d : ℝ × ℝ) :
    rotateEps ≤ (rotateStep s d).phi ∧ (rotateStep s d).phi ≤ Real.pi - rotateEps := by
  have hpi : (0.002 : ℝ) ≤ Real.pi := by
    have := Real.pi_gt_d6
    norm_num at this ⊢
    linarith
  constructor
  · exact le_max_left _ _
  · have h1 : min (Real.pi - rotateEps) (s.phi - d.2 * rotateSpeed) ≤ Real.pi - rotateEps :=
      min_le_left _ _
    have h2 : rotateEps ≤ Real.pi - rotateEps := by
      simp only [rotateEps]; linarith
    simpa only [rotateStep, clamp] using max_le h2 h1

/-- Claim C7 (amended): during a ManualRotate gesture the pitch stays in the
closed interval `[eps, PI - eps]` — it can reach the boundary exactly, but
never exits it — for every sequence of drag deltas from any start pitch
inside the interval. -/
theorem rotateRun_phi_mem_Icc (s : SphericalAngles)
    (h1 : rotateEps ≤ s.phi) (h2 : s.phi ≤ Real.pi - rotateEps)
    (ds : List (ℝ × ℝ)) :
    rotateEps ≤ (rotateRun s ds).phi ∧ (rotateRun s ds).phi ≤ Real.pi - rotateEps := by
  induction ds generalizing s with
  | nil => exact ⟨h1, h2⟩
  | cons d ds ih =>
    have hstep := rotateStep_phi_mem s d
    exact ih (rotateStep s d) hstep.1 hstep.2

theorem rotateRun_phi_mem_Icc_witness :
    rotateEps ≤ (1 : ℝ) ∧ (1 : ℝ) ≤ Real.pi - rotateEps ∧
      rotateEps ≤ (rotateRun ⟨0, 1⟩ [(2, 3)]).phi ∧
      (rotateRun ⟨0, 1⟩ [(2, 3)]).phi ≤ Real.pi - rotateEps := by
  have hpi : (3.141592 : ℝ) < Real.pi := by
    have := Real.pi_gt_d6; norm_num at this ⊢; linarith
  have ha : rotateEps ≤ (1 : ℝ) := by norm_num [rotateEps]
  have hb : (1 : ℝ) ≤ Real.pi - rotateEps := by simp only [rotateEps]; linarith
  exact ⟨ha, hb, rotateRun_phi_mem_Icc ⟨0, 1⟩ ha hb [(2, 3)]⟩

/-- Claim C7, counterexample to the original statement: starting from pitch
`1` (strictly inside the open interval), a single drag delta with
`dy = 1000` drives the pitch to exactly `eps = 0.001` — the boundary is
reached, so the pitch does not stay strictly inside `(eps, PI - eps)`. -/
theorem rotateRun_phi_reaches_boundary :
    (rotateEps < (1 : ℝ) ∧ (1 : ℝ) < Real.pi - rotateEps) ∧
      (rotateRun ⟨0, 1⟩ [(0, 1000)]).phi = rotateEps := by
  have hpi : (3.141592 : ℝ) < Real.pi := by
    have := Real.pi_gt_d6; norm_num at this ⊢; linarith
  have hpi2 : Real.pi < 3.141593 := by
    have := Real.pi_lt_d6; norm_num at this ⊢; linarith
  constructor
  · constructor
    · norm_num [rotateEps]
    · simp only [rotateEps]; linarith
  · simp only [rotateRun, List.foldl, rotateStep, clamp, rotateSpeed, rotateEps]
    have hmin : min (Real.pi - 0.001) ((1 : ℝ) - 1000 * 0.006) = (1 : ℝ) - 1000 * 0.006 := by
      apply min_eq_right; linarith
    rw [hmin]
    apply max_eq_left; norm_num

/-! ### Command bus

`src/systems/command_bus.js` keeps a `Map` from command kind to a `Set`
of handler functions.  Handlers are modelled by numeric identifiers and
payloads by numbers; `emit` is modelled by the list of (handler, payload)
invocations it performs synchronously. -/

structure CommandBus where
  listeners : String → Finset ℕ

/-- `bus.on(type, fn)`: add `fn` to the set for `type` and return the new
bus together with the unsubscribe handle `() => this.off(type, fn)`,
modelled as a function on a later bus state. -/
def busOn (b : CommandBus) (type : String) (fn : ℕ) :
    CommandBus × (CommandBus → CommandBus) :=
  (⟨fun t => if t = type then insert fn (b.listeners t) else b.listeners t⟩,
   fun b' => ⟨fun t => if t = type then (b'.listeners t).erase fn else b'.listeners t⟩)

/-- `bus.emit(type, payload)`: the synchronous invocations performed, one
per currently subscribed handler of that kind, each with the payload. -/
def emitCalls (b : CommandBus) (type : String) (payload : ℕ) : List (ℕ × ℕ) :=
  (b.listeners type).toList.map (fun fn => (fn, payload))

theorem count_emitCalls (b : CommandBus) (type : String) (fn : ℕ) (payload : ℕ) :
    (emitCalls b type payload).count (fn, payload)
      = (b.listeners type).toList.count fn := by
  simp only [emitCalls]
  induction (b.listeners type).toList with
  | nil => simp
  | cons a l ih =>
    simp only [List.map_cons, List.count_cons, ih, Prod.mk.injEq]
    by_cases h : a = fn <;> simp [h]

/-- Claim C9: subscribing a handler via `on` makes every `emit` of that kind
invoke it exactly once with the emitted payload, and after invoking the
returned unsubscribe handle, emits of that kind never invoke it again. -/
theorem commandBus_roundtrip (b : CommandBus) (type : String) (fn : ℕ) :
    (∀ payload, ((emitCalls (busOn b type fn).1 type payload).count (fn, payload) = 1)) ∧
    (∀ payload,
      ((emitCalls ((busOn b type fn).2 (busOn b type fn).1) type payload).count
        (fn, payload) = 0)) := by
  constructor
  · intro payload
    rw [count_emitCalls]
    apply List.count_eq_one_of_mem (Finset.nodup_toList _)
    rw [Finset.mem_toList]
    simp [busOn]
  · intro payload
    rw [count_emitCalls]
    rw [List.count_eq_zero]
    rw [Finset.mem_toList]
    simp [busOn]

/-! ### Obstacles and formation-target projection -/

structure Obstacle where
  id : ℕ
  position : Vec3
  radius : ℝ

/-- One iteration of the loop of `projectOutsideObstacles`
(`src/units/unit_manager.js`): if the point is within
`obstacle.radius + unitRadius + 0.2` of the obstacle centre, push it
radially out to that distance (fixed direction `(1,0,0)` if it sits at
the centre). -/
def projectStep (unitRadius : ℝ) (p : Vec3) (ob : Obstacle) : Vec3 :=
  let dir := p.sub ob.position
  let d := dir.length
  let limit := ob.radius + unitRadius + 0.2
  if d < limit then
    if d < 1e-5 then ob.position.add (Vec3.smul limit ⟨1, 0, 0⟩)
    else ob.position.add (Vec3.smul limit (Vec3.smul (1 / d) dir))
  else p

/-- `projectOutsideObstacles(point, unitRadius, obstacles)`. -/
def projectOutsideObstacles (point : Vec3) (unitRadius : ℝ)
    (obstacles : List Obstacle) : Vec3 :=
  obstacles.foldl (projectStep unitRadius) point

/-- Evaluate a vector length whose squared length is a perfect square. -/
theorem length_eval (v : Vec3) (b : ℝ) (hb : 0 ≤ b)
    (h : v.x ^ 2 + v.y ^ 2 + v.z ^ 2 = b ^ 2) : v.length = b := by
  simp only [Vec3.length, Vec3.lengthSq, h]
  exact Real.sqrt_sq hb

/-- Moving a point by `k` along the fixed direction `(1,0,0)` puts it at
distance `k` from where it was. -/
theorem dist_add_smul_unitx (q : Vec3) (k : ℝ) (hk : 0 ≤ k) :
    (q.add (Vec3.smul k ⟨1, 0, 0⟩)).dist q = k := by
  simp only [Vec3.dist]
  apply length_eval _ _ hk
  simp [Vec3.add, Vec3.smul, Vec3.sub]

/-- After processing an obstacle, the point is never strictly inside that
obstacle's expanded radius. -/
theorem projectStep_not_inside (unitRadius : ℝ) (p : Vec3) (ob : Obstacle) :
    ¬ (projectStep unitRadius p ob).dist ob.position
        < ob.radius + unitRadius + 0.2 := by
  simp only [projectStep]
  set limit := ob.radius + unitRadius + 0.2 with hlimit
  set d := (p.sub ob.position).length with hd
  have hd0 : 0 ≤ d := Vec3.length_nonneg _
  split_ifs with h1 h2
  · -- point at (or numerically at) the centre: moved to distance exactly `limit`
    have hlim0 : 0 ≤ limit := le_trans hd0 h1.le
    have : ((ob.position.add (Vec3.smul limit ⟨1, 0, 0⟩)).dist ob.position) = limit := by
      simp only [Vec3.dist, Vec3.add, Vec3.sub, Vec3.smul, Vec3.length, Vec3.lengthSq]
      simp only [mul_one, mul_zero]
      rw [show (ob.position.x + limit - ob.position.x) = limit by ring]
      rw [show (ob.position.y + 0 - ob.position.y) = 0 by ring]
      rw [show (ob.position.z + 0 - ob.position.z) = 0 by ring]
      rw [show limit ^ 2 + 0 ^ 2 + 0 ^ 2 = limit ^ 2 by ring]
      exact Real.sqrt_sq hlim0
    rw [this]; exact lt_irrefl limit
  · -- generic case: projected radially to distance exactly `limit`
    have hdpos : 0 < d := by
      by_contra hneg
      push_neg at hneg
      have : d = 0 := le_antisymm hneg hd0
      simp only [this] at h2
      norm_num at h2
    have hlim0 : 0 ≤ limit := le_trans hd0 h1.le
    have hkey : ((ob.position.add (Vec3.smul limit (Vec3.smul (1 / d) (p.sub ob.position)))).dist
        ob.position) = limit := by
      simp only [Vec3.dist]
      have hsub : ((ob.position.add (Vec3.smul limit (Vec3.smul (1 / d) (p.sub ob.position)))).sub
          ob.position) = Vec3.smul (limit / d) (p.sub ob.position) := by
        ext <;> simp [Vec3.add, Vec3.sub, Vec3.smul] <;> ring
      rw [hsub, Vec3.length_smul, ← hd]
      rw [abs_of_nonneg (div_nonneg hlim0 hd0)]
      field_simp
    rw [hkey]; exact lt_irrefl limit
  · -- untouched: it was already at distance at least `limit`
    push_neg at h1
    intro hcon
    simp only [Vec3.dist] at hcon
    rw [← hd] at hcon
    exact absurd hcon (not_lt.mpr h1)

/-- Claim C4 (amended): a candidate exactly at an obstacle's centre is
relocated to distance exactly `radius + unitRadius + margin` from that
centre along the fixed direction `(1,0,0)`, and the returned point is
never left strictly inside the expanded radius of the *last* obstacle of
the list (in particular, with a single obstacle it is never left inside);
with several obstacles a later projection may push the point back inside
an earlier obstacle, so the original "inside no obstacle" guarantee does
not hold. -/
theorem projectOutsideObstacles_amended (ob : Obstacle) (r : ℝ)
    (hrad : 0 ≤ ob.radius) (hr : 0 ≤ r) :
    (projectOutsideObstacles ob.position r [ob]).dist ob.position
        = ob.radius + r + 0.2 ∧
    ∀ (p : Vec3) (obs : List Obstacle),
      ¬ (projectOutsideObstacles p r (obs ++ [ob])).dist ob.position
          < ob.radius + r + 0.2 := by
  constructor
  · have hfold : projectOutsideObstacles ob.position r [ob]
        = projectStep r ob.position ob := rfl
    rw [hfold]
    simp only [projectStep]
    have hd : (ob.position.sub ob.position).length = 0 := by
      apply length_eval _ _ le_rfl
      simp [Vec3.sub]
    rw [hd]
    rw [if_pos (by linarith), if_pos (by norm_num)]
    exact dist_add_smul_unitx _ _ (by linarith)
  · intro p obs
    have hfold : projectOutsideObstacles p r (obs ++ [ob])
        = projectStep r (projectOutsideObstacles p r obs) ob := by
      simp [projectOutsideObstacles, List.foldl_append]
    rw [hfold]
    exact projectStep_not_inside r _ ob

theorem projectOutsideObstacles_amended_witness :
    (0 : ℝ) ≤ (1 : ℝ) ∧ (0 : ℝ) ≤ (0.8 : ℝ) ∧
    (projectOutsideObstacles (⟨0, 0, 0⟩ : Vec3) 0.8
        [⟨1, ⟨0, 0, 0⟩, 1⟩]).dist ⟨0, 0, 0⟩ = 1 + 0.8 + 0.2 ∧
    ¬ (projectOutsideObstacles (⟨7, 0, 0⟩ : Vec3) 0.8
        ([] ++ [⟨1, ⟨0, 0, 0⟩, 1⟩])).dist ⟨0, 0, 0⟩ < 1 + 0.8 + 0.2 := by
  have h := projectOutsideObstacles_amended ⟨1, ⟨0, 0, 0⟩, 1⟩ 0.8
    (by norm_num) (by norm_num)
  exact ⟨by norm_num, by norm_num, h.1, h.2 ⟨7, 0, 0⟩ []⟩

/-- Claim C4, counterexample to the original claim: with obstacles
`A = sphere(centre (0,0,0), radius 1)` then `B = sphere(centre (3,0,0),
radius 1)` and unit radius `0.8` (expanded radius `2`), the candidate
`(2.5,0,0)` is outside `A`, is projected out of `B` to `(1,0,0)` — which
lies strictly inside `A`'s expanded radius, at distance `1 < 2` from its
centre.  The returned point *is* left inside an obstacle. -/
theorem projectOutsideObstacles_counterexample :
    projectOutsideObstacles ⟨2.5, 0, 0⟩ 0.8
        [⟨1, ⟨0, 0, 0⟩, 1⟩, ⟨2, ⟨3, 0, 0⟩, 1⟩] = (⟨1, 0, 0⟩ : Vec3) ∧
    (Vec3.dist ⟨1, 0, 0⟩ ⟨0, 0, 0⟩) < 1 + 0.8 + 0.2 := by
  constructor
  · have hfold : projectOutsideObstacles ⟨2.5, 0, 0⟩ 0.8
        [⟨1, ⟨0, 0, 0⟩, 1⟩, ⟨2, ⟨3, 0, 0⟩, 1⟩]
        = projectStep 0.8 (projectStep 0.8 ⟨2.5, 0, 0⟩ ⟨1, ⟨0, 0, 0⟩, 1⟩)
            ⟨2, ⟨3, 0, 0⟩, 1⟩ := rfl
    have hstep1 : projectStep 0.8 ⟨2.5, 0, 0⟩ ⟨1, ⟨0, 0, 0⟩, 1⟩
        = (⟨2.5, 0, 0⟩ : Vec3) := by
      simp only [projectStep]
      have hd : ((⟨2.5, 0, 0⟩ : Vec3).sub ⟨0, 0, 0⟩).length = 2.5 := by
        apply length_eval _ _ (by norm_num)
        simp [Vec3.sub]
      rw [hd]
      rw [if_neg (by norm_num)]
    have hstep2 : projectStep 0.8 ⟨2.5, 0, 0⟩ ⟨2, ⟨3, 0, 0⟩, 1⟩
        = (⟨1, 0, 0⟩ : Vec3) := by
      simp only [projectStep]
      have hd : ((⟨2.5, 0, 0⟩ : Vec3).sub ⟨3, 0, 0⟩).length = 0.5 := by
        apply length_eval _ _ (by norm_num)
        simp [Vec3.sub]; norm_num
      rw [hd]
      rw [if_pos (by norm_num), if_neg (by norm_num)]
      simp only [Vec3.add, Vec3.smul, Vec3.sub, Vec3.mk.injEq]
      norm_num
    rw [hfold, hstep1, hstep2]
  · have hd : (Vec3.dist ⟨1, 0, 0⟩ ⟨0, 0, 0⟩) = 1 := by
      simp only [Vec3.dist]
      apply length_eval _ _ (by norm_num)
      simp [Vec3.sub]
    rw [hd]; norm_num

/-- Claim C10: the obstacle projection is the identity on safe points —
if the candidate is at distance at least `obstacle.radius + unitRadius +
margin` (margin `0.2`) from every obstacle's centre, the returned point
is the input point. -/
theorem projectOutsideObstacles_id (p : Vec3) (r : ℝ) (obs : List Obstacle)
    (h : ∀ ob ∈ obs, ob.radius + r + 0.2 ≤ p.dist ob.position) :
    projectOutsideObstacles p r obs = p := by
  induction obs with
  | nil => rfl
  | cons ob obs ih =>
    have hstep : projectStep r p ob = p := by
      simp only [projectStep]
      rw [if_neg]
      push_neg
      exact h ob (List.mem_cons_self ob obs)
    have hfold : projectOutsideObstacles p r (ob :: obs)
        = projectOutsideObstacles (projectStep r p ob) r obs := rfl
    rw [hfold, hstep]
    exact ih (fun o ho => h o (List.mem_cons_of_mem ob ho))

theorem projectOutsideObstacles_id_witness :
    ((1 : ℝ) + 0.8 + 0.2 ≤ (⟨5, 0, 0⟩ : Vec3).dist ⟨0, 0, 0⟩) ∧
    projectOutsideObstacles ⟨5, 0, 0⟩ 0.8 [⟨1, ⟨0, 0, 0⟩, 1⟩] = (⟨5, 0, 0⟩ : Vec3) := by
  have hd : (⟨5, 0, 0⟩ : Vec3).dist ⟨0, 0, 0⟩ = 5 := by
    simp only [Vec3.dist]
    apply length_eval _ _ (by norm_num)
    simp [Vec3.sub]
  constructor
  · rw [hd]; norm_num
  · apply projectOutsideObstacles_id
    intro ob hob
    simp only [List.mem_singleton] at hob
    subst hob
    simp only
    rw [hd]; norm_num

/-! ### Units and the per-tick steering update (`src/units/unit.js`)

The constructor takes `maxSpeed`, `maxAccel`, `maxTurnRate`, `radius` and
`maxHp` from options; the remaining steering parameters are hard-coded
constants of every unit and are modelled as constants here. -/

def arriveRadius : ℝ := 6

def stopRadius : ℝ := 0.6

def idleDamping : ℝ := 0.9

def avoidLookahead : ℝ := 1.2

def avoidMargin : ℝ := 0.6

def maxAvoidForce : ℝ := 30

def avoidWeight : ℝ := 1.2

structure Unit where
  id : ℕ
  position : Vec3
  velocity : Vec3
  target : Option Vec3
  selected : Bool
  maxSpeed : ℝ
  maxAccel : ℝ
  maxTurnRate : ℝ
  radius : ℝ
  hp : ℝ

/-- A freshly constructed `Unit` with the constructor's default options. -/
def mkUnit (id : ℕ) (position : Vec3) : Unit :=
  { id := id, position := position, velocity := Vec3.zero, target := none,
    selected := false, maxSpeed := 10, maxAccel := 15, maxTurnRate := 2,
    radius := 0.8, hp := 100 }

/-- The `separation` helper of `unit.js`: inverse-square repulsion from
neighbours within `(sum of radii) * 1.2`, averaged and clamped to
`maxAccel`.  The JS skips `n === self`; units are identified by id. -/
def separation (self : Unit) (neighbors : List Unit) (maxAccel : ℝ) : Vec3 :=
  let step := fun (acc : Vec3 × ℕ) (n : Unit) =>
    if n.id = self.id then acc
    else
      let diff := self.position.sub n.position
      let d := diff.length
      let desired := (self.radius + n.radius) * 1.2
      if 0 < d ∧ d < desired then
        (acc.1.add (Vec3.smul (1 / (d * d + 1e-6)) diff), acc.2 + 1)
      else acc
  let rc := neighbors.foldl step (Vec3.zero, 0)
  let repulse := if 0 < rc.2 then Vec3.smul (1 / (rc.2 : ℝ)) rc.1 else rc.1
  let mag := repulse.length
  if mag > maxAccel then Vec3.smul (maxAccel / mag) repulse else repulse

/-- The `avoidSpheres` helper of `unit.js`: probe a forward segment and
steer away from the obstacle with least clearance. -/
def avoidSpheres (self : Unit) (obstacles : List Obstacle) : Vec3 :=
  let forward1 :=
    match self.target with
    | some t => if self.velocity.lengthSq < (1e-4 : ℝ) then t.sub self.position else self.velocity
    | none => self.velocity
  let speed := max 0.001 self.velocity.length
  if forward1.lengthSq < (1e-6 : ℝ) then Vec3.zero
  else
    let forward := forward1.normalizeJS
    let lookDist := max 2 (speed * avoidLookahead + self.maxSpeed * 0.25)
    let segStart := self.position
    let pick := fun (best : Option (Obstacle × ℝ × Vec3)) (ob : Obstacle) =>
      let expanded := ob.radius + self.radius + avoidMargin
      let toCenter := ob.position.sub segStart
      if toCenter.dot forward < -expanded then best
      else
        let t := clamp (toCenter.dot forward) 0 lookDist
        let p := segStart.add (Vec3.smul t forward)
        let d := p.dist ob.position
        if d < expanded ∧ (∀ b ∈ best, d < b.2.1) then some (ob, d, p) else best
    match obstacles.foldl pick none with
    | none => Vec3.zero
    | some (threat, minDist, closestPoint) =>
      let normal0 := closestPoint.sub threat.position
      let nLen := normal0.length
      if nLen < (1e-6 : ℝ) then Vec3.zero
      else
        let normal := Vec3.smul (1 / nLen) normal0
        let expanded := threat.radius + self.radius + avoidMargin
        let penetration := max 0 (expanded - minDist)
        let strength := clamp (penetration / expanded) 0.1 1 * maxAvoidForce
        let forwardComp := normal.dot forward
        let avoidDir := (normal.add (Vec3.smul (-forwardComp) forward)).normalizeJS
        Vec3.smul strength avoidDir

/-- The speed clamp of the integration step:
`if (speed > maxSpeed) velocity *= maxSpeed / speed`. -/
def clampSpeed (m : ℝ) (v : Vec3) : Vec3 :=
  if v.length > m then Vec3.smul (m / v.length) v else v

/-- `Unit.update(dt, neighbors, obstacles)`: arrival/seek, separation,
obstacle avoidance, integration with speed clamp and idle damping.
(The orientation step only rotates the visual mesh and is omitted.) -/
def update (dt : ℝ) (neighbors : List Unit) (obstacles : List Obstacle)
    (u : Unit) : Unit :=
  -- 1. arrival / seek: (steering contribution, velocity, target) afterwards
  let arr : Vec3 × Vec3 × Option Vec3 :=
    match u.target with
    | none => (Vec3.zero, u.velocity, none)
    | some tgt =>
      let toTarget := tgt.sub u.position
      let d := toTarget.length
      if d ≤ stopRadius then (Vec3.zero, Vec3.zero, none)
      else
        let desiredSpeed :=
          if d < arriveRadius then u.maxSpeed * (d / arriveRadius) else u.maxSpeed
        let desired := Vec3.smul desiredSpeed (Vec3.smul (1 / d) toTarget)
        let arriveSteer0 := desired.sub u.velocity
        let mag := arriveSteer0.length
        let arriveSteer :=
          if mag > u.maxAccel then Vec3.smul (u.maxAccel / mag) arriveSteer0
          else arriveSteer0
        (arriveSteer, u.velocity, some tgt)
  let u1 : Unit := { u with velocity := arr.2.1, target := arr.2.2 }
  -- 2. separation (weight depends on the *current* target, after arrival)
  let sepWeight : ℝ := if u1.target.isSome then 0.9 else 0.6
  let steer2 := arr.1.add (Vec3.smul sepWeight (separation u1 neighbors u.maxAccel))
  -- 3. obstacle avoidance
  let steer3 :=
    if obstacles = [] then steer2
    else
      let avoid0 := avoidSpheres u1 obstacles
      if 0 < avoid0.lengthSq then
        let mag := avoid0.length
        let avoid :=
          if mag > maxAvoidForce then Vec3.smul (maxAvoidForce / mag) avoid0
          else avoid0
        steer2.add (Vec3.smul avoidWeight avoid)
      else steer2
  -- 4. integrate, clamp speed, idle damping, move
  let vel2 := u1.velocity.add (Vec3.smul dt steer3)
  let speed := vel2.length
  let vel3 := clampSpeed u.maxSpeed vel2
  let vel4 :=
    if u1.target = none ∧ 0 < speed then
      Vec3.smul (Real.rpow idleDamping (max 1 (dt * 60))) vel3
    else vel3
  { u1 with position := u1.position.add (Vec3.smul dt vel4), velocity := vel4 }

theorem Vec3.dist_comm (a b : Vec3) : a.dist b = b.dist a := by
  simp only [Vec3.dist, Vec3.length, Vec3.lengthSq, Vec3.sub]
  congr 1
  ring

theorem Vec3.add_zero_vec (v : Vec3) : v.add Vec3.zero = v := by
  ext <;> simp [Vec3.add, Vec3.zero]

theorem Vec3.zero_add_vec (v : Vec3) : Vec3.zero.add v = v := by
  ext <;> simp [Vec3.add, Vec3.zero]

theorem separation_nil (self : Unit) (m : ℝ) : separation self [] m = Vec3.zero := by
  simp only [separation, List.foldl, lt_self_iff_false, if_false, Vec3.length_zero]
  split_ifs <;> simp [Vec3.smul_zero_vec]

theorem clampSpeed_zero (m : ℝ) : clampSpeed m Vec3.zero = Vec3.zero := by
  simp only [clampSpeed, Vec3.length_zero]
  split_ifs <;> simp [Vec3.smul_zero_vec]

theorem clampSpeed_length_le (m : ℝ) (hm : 0 ≤ m) (v : Vec3) :
    (clampSpeed m v).length ≤ m := by
  simp only [clampSpeed]
  split_ifs with h
  · rw [Vec3.length_smul]
    have hv : 0 < v.length := lt_of_le_of_lt hm h
    rw [abs_of_nonneg (div_nonneg hm hv.le), div_mul_cancel₀ _ hv.ne']
  · exact le_of_not_lt h

theorem damp_clamp_le (m ρ : ℝ) (hm : 0 ≤ m) (hρ0 : 0 ≤ ρ) (hρ1 : ρ ≤ 1)
    (C : Prop) [Decidable C] (v : Vec3) :
    (if C then Vec3.smul ρ (clampSpeed m v) else clampSpeed m v).length ≤ m := by
  split_ifs with h
  · rw [Vec3.length_smul, abs_of_nonneg hρ0]
    calc ρ * (clampSpeed m v).length ≤ 1 * (clampSpeed m v).length :=
          mul_le_mul_of_nonneg_right hρ1 (Vec3.length_nonneg _)
      _ = (clampSpeed m v).length := one_mul _
      _ ≤ m := clampSpeed_length_le m hm v
  · exact clampSpeed_length_le m hm v

/-- Claim C6: at the end of `Unit.update`, for every tick step `dt ≥ 0`
(and any neighbours, obstacles and starting state), the speed is at most
the unit's `maxSpeed`: the integration step clamps the speed and the
subsequent idle damping only shrinks it. -/
theorem update_speed_le_maxSpeed (dt : ℝ) (neighbors : List Unit)
    (obstacles : List Obstacle) (u : Unit)
    (_hdt : 0 ≤ dt) (hms : 0 ≤ u.maxSpeed) :
    (update dt neighbors obstacles u).velocity.length ≤ u.maxSpeed := by
  have hρ0 : 0 ≤ Real.rpow idleDamping (max 1 (dt * 60)) :=
    Real.rpow_nonneg (by norm_num [idleDamping]) _
  have hρ1 : Real.rpow idleDamping (max 1 (dt * 60)) ≤ 1 :=
    Real.rpow_le_one (by norm_num [idleDamping]) (by norm_num [idleDamping])
      (le_trans zero_le_one (le_max_left 1 _))
  simp only [update]
  exact damp_clamp_le u.maxSpeed _ hms hρ0 hρ1 _ _

theorem update_speed_le_maxSpeed_witness :
    (0 : ℝ) ≤ 0 ∧ (0 : ℝ) ≤ (mkUnit 1 Vec3.zero).maxSpeed ∧
      (update 0 [] [] (mkUnit 1 Vec3.zero)).velocity.length
        ≤ (mkUnit 1 Vec3.zero).maxSpeed :=
  ⟨le_refl 0, by norm_num [mkUnit],
   update_speed_le_maxSpeed 0 [] [] (mkUnit 1 Vec3.zero) (le_refl 0)
     (by norm_num [mkUnit])⟩

/-- Claim C2 (amended): a unit whose target is within `stopRadius` has the
target cleared by one steering tick; when no separation or avoidance
force acts during that tick (empty neighbour and obstacle lists, as in
the claim's isolated-unit scenario), the velocity at the end of the tick
is `(0,0,0)`.  With a close neighbour the separation force re-accelerates
the unit in the same tick, so the original unconditional statement fails. -/
theorem update_arrival_clears (u : Unit) (dt : ℝ) (tgt : Vec3)
    (htgt : u.target = some tgt) (hdist : u.position.dist tgt ≤ stopRadius) :
    (update dt [] [] u).target = none ∧
      (update dt [] [] u).velocity = Vec3.zero := by
  have hd : (tgt.sub u.position).length ≤ stopRadius := by
    rw [show (tgt.sub u.position).length = Vec3.dist tgt u.position from rfl,
        Vec3.dist_comm]
    exact hdist
  simp only [update, htgt]
  rw [if_pos hd]
  simp [separation_nil, clampSpeed_zero, Vec3.smul_zero_vec, Vec3.add_zero_vec,
    Vec3.zero_add_vec, Vec3.length_zero]

theorem update_arrival_clears_witness :
    ({ mkUnit 1 ⟨0, 0, 0⟩ with target := some ⟨0.5, 0, 0⟩ } : Unit).target
        = some (⟨0.5, 0, 0⟩ : Vec3) ∧
    ({ mkUnit 1 ⟨0, 0, 0⟩ with target := some ⟨0.5, 0, 0⟩ } : Unit).position.dist
        ⟨0.5, 0, 0⟩ ≤ stopRadius ∧
    (update 1 [] [] { mkUnit 1 ⟨0, 0, 0⟩ with target := some ⟨0.5, 0, 0⟩ }).target
        = none ∧
    (update 1 [] [] { mkUnit 1 ⟨0, 0, 0⟩ with target := some ⟨0.5, 0, 0⟩ }).velocity
        = Vec3.zero := by
  have htgt : ({ mkUnit 1 ⟨0, 0, 0⟩ with target := some ⟨0.5, 0, 0⟩ } : Unit).target
      = some (⟨0.5, 0, 0⟩ : Vec3) := rfl
  have hdist : ({ mkUnit 1 ⟨0, 0, 0⟩ with target := some ⟨0.5, 0, 0⟩ } : Unit).position.dist
      ⟨0.5, 0, 0⟩ ≤ stopRadius := by
    have h05 : ({ mkUnit 1 ⟨0, 0, 0⟩ with target := some ⟨0.5, 0, 0⟩ } : Unit).position.dist
        (⟨0.5, 0, 0⟩ : Vec3) = 0.5 := by
      simp only [Vec3.dist, mkUnit]
      apply length_eval _ _ (by norm_num)
      simp [Vec3.sub]
    rw [h05]; norm_num [stopRadius]
  have h := update_arrival_clears _ 1 _ htgt hdist
  exact ⟨htgt, hdist, h.1, h.2⟩

theorem Vec3.one_smul_vec (v : Vec3) : Vec3.smul 1 v = v := by
  ext <;> simp [Vec3.smul]

/-- In the arrived case with no obstacles the target is cleared, and the
end-of-tick velocity is the separation force (weighted `0.6`, scaled by
`dt`), speed-clamped and idle-damped. -/
theorem update_arrived_eq (u : Unit) (dt : ℝ) (tgt : Vec3)
    (neighbors : List Unit)
    (htgt : u.target = some tgt) (hd : (tgt.sub u.position).length ≤ stopRadius) :
    (update dt neighbors [] u).target = none ∧
    (update dt neighbors [] u).velocity =
      (let vel2 := Vec3.smul dt (Vec3.smul 0.6
          (separation { u with velocity := Vec3.zero, target := none }
            neighbors u.maxAccel))
       let vel3 := clampSpeed u.maxSpeed vel2
       if 0 < vel2.length then
         Vec3.smul (Real.rpow idleDamping (max 1 (dt * 60))) vel3
       else vel3) := by
  constructor
  · simp only [update, htgt]
    rw [if_pos hd]
  · simp only [update, htgt]
    rw [if_pos hd]
    simp [Vec3.zero_add_vec, Vec3.add_zero_vec]

/-- The separation force on an arrived unit `A` at the origin from a
single effective neighbour `B` at `(1,0,0)` (both radius `0.8`). -/
theorem separation_uA_uB :
    separation
        { ({ mkUnit 1 ⟨0, 0, 0⟩ with target := some ⟨0.5, 0, 0⟩ } : Unit) with
          velocity := Vec3.zero, target := none }
        [{ mkUnit 1 ⟨0, 0, 0⟩ with target := some ⟨0.5, 0, 0⟩ }, mkUnit 2 ⟨1, 0, 0⟩]
        ({ mkUnit 1 ⟨0, 0, 0⟩ with target := some ⟨0.5, 0, 0⟩ } : Unit).maxAccel
      = ⟨-(1 / (1 + 1e-6)), 0, 0⟩ := by
  have hlen1 : Vec3.length ⟨-1, 0, 0⟩ = 1 := by
    apply length_eval _ _ (by norm_num)
    norm_num
  simp only [separation, List.foldl, mkUnit]
  norm_num [Vec3.sub, hlen1]
  rw [if_neg]
  · rw [Vec3.one_smul_vec, Vec3.zero_add_vec]
    ext <;> norm_num [Vec3.smul]
  · rw [Vec3.one_smul_vec, Vec3.zero_add_vec, Vec3.length_smul, hlen1]
    rw [abs_of_nonneg (by norm_num)]
    norm_num

/-- Claim C2, counterexample to the original statement: unit `A` at the
origin with target `(0.5,0,0)` (distance `0.5 ≤ stopRadius = 0.6`) ticked
with `dt = 1` alongside neighbour `B` at `(1,0,0)` does clear its target,
but the separation force from `B` accelerates it during the same tick, so
its end-of-tick velocity is not `(0,0,0)`. -/
theorem update_arrival_counterexample :
    (({ mkUnit 1 ⟨0, 0, 0⟩ with target := some ⟨0.5, 0, 0⟩ } : Unit).target
        = some (⟨0.5, 0, 0⟩ : Vec3) ∧
     ({ mkUnit 1 ⟨0, 0, 0⟩ with target := some ⟨0.5, 0, 0⟩ } : Unit).position.dist
        ⟨0.5, 0, 0⟩ ≤ stopRadius) ∧
    (update 1 [{ mkUnit 1 ⟨0, 0, 0⟩ with target := some ⟨0.5, 0, 0⟩ },
        mkUnit 2 ⟨1, 0, 0⟩] []
        { mkUnit 1 ⟨0, 0, 0⟩ with target := some ⟨0.5, 0, 0⟩ }).target = none ∧
    (update 1 [{ mkUnit 1 ⟨0, 0, 0⟩ with target := some ⟨0.5, 0, 0⟩ },
        mkUnit 2 ⟨1, 0, 0⟩] []
        { mkUnit 1 ⟨0, 0, 0⟩ with target := some ⟨0.5, 0, 0⟩ }).velocity
      ≠ Vec3.zero := by
  have htgt : ({ mkUnit 1 ⟨0, 0, 0⟩ with target := some ⟨0.5, 0, 0⟩ } : Unit).target
      = some (⟨0.5, 0, 0⟩ : Vec3) := rfl
  have h05 : ((⟨0.5, 0, 0⟩ : Vec3).sub
      ({ mkUnit 1 ⟨0, 0, 0⟩ with target := some ⟨0.5, 0, 0⟩ } : Unit).position).length
      = 0.5 := by
    apply length_eval _ _ (by norm_num)
    simp [Vec3.sub, mkUnit]
  have hd : ((⟨0.5, 0, 0⟩ : Vec3).sub
      ({ mkUnit 1 ⟨0, 0, 0⟩ with target := some ⟨0.5, 0, 0⟩ } : Unit).position).length
      ≤ stopRadius := by rw [h05]; norm_num [stopRadius]
  have hdist : ({ mkUnit 1 ⟨0, 0, 0⟩ with target := some ⟨0.5, 0, 0⟩ } : Unit).position.dist
      ⟨0.5, 0, 0⟩ ≤ stopRadius := by
    rw [Vec3.dist_comm]
    exact hd
  have heq := update_arrived_eq _ 1 _
    [{ mkUnit 1 ⟨0, 0, 0⟩ with target := some ⟨0.5, 0, 0⟩ }, mkUnit 2 ⟨1, 0, 0⟩]
    htgt hd
  refine ⟨⟨htgt, hdist⟩, heq.1, ?_⟩
  have hvel := heq.2
  rw [separation_uA_uB] at hvel
  rw [hvel]
  norm_num [clampSpeed, mkUnit, idleDamping]
  have hv : Vec3.smul (1 : ℝ) (Vec3.smul (3 / 5) ⟨-(1000000 / 1000001), 0, 0⟩)
      = (⟨-(600000 / 1000001), 0, 0⟩ : Vec3) := by
    ext <;> norm_num [Vec3.smul]
  have hlen : Vec3.length ⟨-(600000 / 1000001), 0, 0⟩ = 600000 / 1000001 := by
    apply length_eval _ _ (by norm_num)
    norm_num
  rw [hv, hlen]
  norm_num [Vec3.smul, Vec3.zero, Vec3.mk.injEq]

/-! ### Volumetric selection (`InputSystem.onMouseUp`)

On ending a selection gesture, for every registered unit:
`u.setSelected(u.position.distanceTo(selectCenter) <= selectRadius)`. -/

def applySelection (units : List Unit) (center : Vec3) (radius : ℝ) : List Unit :=
  units.map (fun u =>
    { u with selected := if u.position.dist center ≤ radius then true else false })

/-- Claim C1: when a selection gesture ends, every registered unit's
`selected` flag is set to `true` exactly when its 3-D Euclidean distance
to the frozen center is at most the final radius (boundary inclusive),
replacing any prior selection state (the new flag does not depend on the
old one, and no other field changes).  The last conjunct exhibits the
inclusive boundary on a concrete unit at distance exactly `5` from the
center with radius `5`. -/
theorem applySelection_spec (units : List Unit) (center : Vec3) (radius : ℝ) :
    ((applySelection units center radius).length = units.length) ∧
    (∀ i : ℕ, (applySelection units center radius)[i]? =
      Option.map (fun u =>
        { u with selected := if u.position.dist center ≤ radius then true else false })
        units[i]?) ∧
    ((applySelection [mkUnit 7 ⟨3, 0, 4⟩] ⟨0, 0, 0⟩ 5).map (fun u => u.selected)
      = [true]) := by
  refine ⟨?_, ?_, ?_⟩
  · simp [applySelection]
  · intro i
    simp only [applySelection]
    exact List.getElem?_map _ _ _
  · have hdist : (mkUnit 7 ⟨3, 0, 4⟩).position.dist ⟨0, 0, 0⟩ = 5 := by
      simp only [Vec3.dist, mkUnit]
      apply length_eval _ _ (by norm_num)
      simp [Vec3.sub]
      norm_num
    simp [applySelection, hdist]

/-! ### Golden-angle formation offsets (`sunflowerOffsets` in
`src/units/unit_manager.js`) -/

def goldenAngle : ℝ := Real.pi * (3 - Real.sqrt 5)

/-- `sunflowerOffsets(n, spacing)`: planar XZ offsets on a golden-angle
spiral, `r_k = c*sqrt(k+0.5)`, `theta_k = k*goldenAngle`,
`c = spacing / sqrt(PI)`. -/
def sunflowerOffsets (n : ℕ) (spacing : ℝ) : List (ℝ × ℝ) :=
  let c := spacing / Real.sqrt Real.pi
  (List.range n).map (fun k =>
    let r := c * Real.sqrt ((k : ℝ) + 0.5)
    let theta := (k : ℝ) * goldenAngle
    (r * Real.cos theta, r * Real.sin theta))

/-- Planar Euclidean distance between two XZ offsets. -/
def dist2 (p q : ℝ × ℝ) : ℝ := Real.sqrt ((p.1 - q.1) ^ 2 + (p.2 - q.2) ^ 2)

/-- The `k`-th of the five offsets generated for five selected units. -/
def off5 (S : ℝ) (k : ℕ) : ℝ × ℝ := (sunflowerOffsets 5 S).getD k (0, 0)

theorem off5_eq (S : ℝ) (k : ℕ) (hk : k < 5) :
    off5 S k
      = (S / Real.sqrt Real.pi * Real.sqrt ((k : ℝ) + 0.5)
           * Real.cos ((k : ℝ) * goldenAngle),
         S / Real.sqrt Real.pi * Real.sqrt ((k : ℝ) + 0.5)
           * Real.sin ((k : ℝ) * goldenAngle)) := by
  interval_cases k <;> rfl

theorem sqrt_le_of_sq (x b : ℝ) (hb : 0 ≤ b) (h : x ≤ b ^ 2) : Real.sqrt x ≤ b := by
  have h2 := Real.sqrt_le_sqrt h
  rwa [Real.sqrt_sq hb] at h2

theorem le_sqrt_of_sq (b x : ℝ) (hb : 0 ≤ b) (h : b ^ 2 ≤ x) : b ≤ Real.sqrt x := by
  have h2 := Real.sqrt_le_sqrt h
  rwa [Real.sqrt_sq hb] at h2

theorem sqrt5_lb : (2.2360679 : ℝ) ≤ Real.sqrt 5 :=
  le_sqrt_of_sq _ _ (by norm_num) (by norm_num)

theorem sqrt5_ub : Real.sqrt 5 ≤ 2.2360680 :=
  sqrt_le_of_sq _ _ (by norm_num) (by norm_num)

/-- Law of cosines for two points in polar form. -/
theorem dist2_sq_polar (r1 r2 a b : ℝ) :
    (r1 * Real.cos a - r2 * Real.cos b) ^ 2
      + (r1 * Real.sin a - r2 * Real.sin b) ^ 2
    = r1 ^ 2 + r2 ^ 2 - 2 * r1 * r2 * Real.cos (a - b) := by
  rw [Real.cos_sub]
  have h1 := Real.sin_sq_add_cos_sq a
  have h2 := Real.sin_sq_add_cos_sq b
  linear_combination r1 ^ 2 * h1 + r2 ^ 2 * h2

theorem cos_ga_nonpos : Real.cos goldenAngle ≤ 0 := by
  have hs1 := sqrt5_lb
  have hs2 := sqrt5_ub
  have hπ := Real.pi_pos
  apply Real.cos_nonpos_of_pi_div_two_le_of_le
  · simp only [goldenAngle]
    nlinarith
  · simp only [goldenAngle]
    nlinarith

theorem cos_2ga_le : Real.cos (2 * goldenAngle) ≤ 0.1 := by
  have hs1 := sqrt5_lb
  have hs2 := sqrt5_ub
  have hπ1 := Real.pi_gt_d6
  have hπ2 := Real.pi_lt_d6
  have h : 2 * goldenAngle = 2 * Real.pi - 2 * Real.pi * (Real.sqrt 5 - 2) := by
    simp only [goldenAngle]; ring
  rw [h, Real.cos_two_pi_sub]
  have h2 : 2 * Real.pi * (Real.sqrt 5 - 2)
      = Real.pi / 2 - Real.pi * (4.5 - 2 * Real.sqrt 5) := by ring
  rw [h2, Real.cos_pi_div_two_sub]
  have hvpos : 0 < Real.pi * (4.5 - 2 * Real.sqrt 5) := by nlinarith
  have hvsmall : Real.pi * (4.5 - 2 * Real.sqrt 5) ≤ 0.1 := by nlinarith
  exact le_trans (Real.sin_lt hvpos).le hvsmall

theorem x3_bounds : (0.9166 : ℝ) ≤ Real.pi * (7 - 3 * Real.sqrt 5)
    ∧ Real.pi * (7 - 3 * Real.sqrt 5) ≤ 0.91671 := by
  have hs1 := sqrt5_lb
  have hs2 := sqrt5_ub
  have hπ1 := Real.pi_gt_d6
  have hπ2 := Real.pi_lt_d6
  constructor <;> nlinarith

theorem cos_3ga_bounds : Real.cos (3 * goldenAngle) ≤ 0.62
    ∧ (0.54 : ℝ) ≤ Real.cos (3 * goldenAngle) := by
  have h : 3 * goldenAngle = Real.pi * (7 - 3 * Real.sqrt 5) + 2 * Real.pi := by
    simp only [goldenAngle]; ring
  rw [h, Real.cos_add_two_pi]
  have hx := x3_bounds
  have habs : |Real.pi * (7 - 3 * Real.sqrt 5)| ≤ 1 := by
    rw [abs_of_nonneg (by linarith [hx.1])]
    linarith [hx.2]
  have hb2 := abs_le.mp (Real.cos_bound habs)
  have habs2 : |Real.pi * (7 - 3 * Real.sqrt 5)| = Real.pi * (7 - 3 * Real.sqrt 5) :=
    abs_of_nonneg (by linarith [hx.1])
  rw [habs2] at hb2
  have hx2u : (Real.pi * (7 - 3 * Real.sqrt 5)) ^ 2 ≤ 0.8403573 := by
    nlinarith [hx.1, hx.2]
  have hx2l : (0.8401555 : ℝ) ≤ (Real.pi * (7 - 3 * Real.sqrt 5)) ^ 2 := by
    nlinarith [hx.1, hx.2]
  have hx4u : (Real.pi * (7 - 3 * Real.sqrt 5)) ^ 4 ≤ 0.70621 := by
    nlinarith [hx2u, sq_nonneg (Real.pi * (7 - 3 * Real.sqrt 5))]
  constructor
  · linarith [hb2.2, hx2l, hx4u]
  · nlinarith [hb2.1, hx2u, hx4u, sq_nonneg (Real.pi * (7 - 3 * Real.sqrt 5))]

theorem cos_4ga_nonpos : Real.cos (4 * goldenAngle) ≤ 0 := by
  have hs1 := sqrt5_lb
  have hs2 := sqrt5_ub
  have hπ1 := Real.pi_gt_d6
  have hπ2 := Real.pi_lt_d6
  have hπ := Real.pi_pos
  have h : 4 * goldenAngle = Real.pi * (10 - 4 * Real.sqrt 5) + 2 * Real.pi := by
    simp only [goldenAngle]; ring
  rw [h, Real.cos_add_two_pi]
  apply Real.cos_nonpos_of_pi_div_two_le_of_le
  · nlinarith
  · nlinarith

/-- Squared distance between offsets `j` and `k` in law-of-cosines form. -/
theorem E_eval (S : ℝ) (j k : ℕ) :
    (S / Real.sqrt Real.pi * Real.sqrt ((j : ℝ) + 0.5) * Real.cos ((j : ℝ) * goldenAngle)
       - S / Real.sqrt Real.pi * Real.sqrt ((k : ℝ) + 0.5) * Real.cos ((k : ℝ) * goldenAngle)) ^ 2
    + (S / Real.sqrt Real.pi * Real.sqrt ((j : ℝ) + 0.5) * Real.sin ((j : ℝ) * goldenAngle)
       - S / Real.sqrt Real.pi * Real.sqrt ((k : ℝ) + 0.5) * Real.sin ((k : ℝ) * goldenAngle)) ^ 2
    = S ^ 2 / Real.pi * (((j : ℝ) + 0.5) + ((k : ℝ) + 0.5)
        - 2 * Real.sqrt (((j : ℝ) + 0.5) * ((k : ℝ) + 0.5))
          * Real.cos ((j : ℝ) * goldenAngle - (k : ℝ) * goldenAngle)) := by
  have hπpos := Real.pi_pos
  have hjk : Real.sqrt (((j : ℝ) + 0.5) * ((k : ℝ) + 0.5))
      = Real.sqrt ((j : ℝ) + 0.5) * Real.sqrt ((k : ℝ) + 0.5) :=
    Real.sqrt_mul (by positivity) _
  set A := Real.sqrt ((j : ℝ) + 0.5) with hA
  set B := Real.sqrt ((k : ℝ) + 0.5) with hB
  set P := Real.sqrt Real.pi with hP
  have hA2 : A ^ 2 = (j : ℝ) + 0.5 := Real.sq_sqrt (by positivity)
  have hB2 : B ^ 2 = (k : ℝ) + 0.5 := Real.sq_sqrt (by positivity)
  have hP2 : P ^ 2 = Real.pi := Real.sq_sqrt hπpos.le
  have hP0 : P ≠ 0 := by rw [hP]; positivity
  rw [dist2_sq_polar, hjk, ← hA2, ← hB2, ← hP2]
  field_simp
  ring

/-- A lower bound on the bracketed law-of-cosines term transfers to the
distance between the offsets. -/
theorem le_dist2_of_bound (S : ℝ) (hS : 0 < S) (j k : ℕ) (hj : j < 5) (hk : k < 5)
    (hB : Real.pi / 4 ≤ ((j : ℝ) + 0.5) + ((k : ℝ) + 0.5)
        - 2 * Real.sqrt (((j : ℝ) + 0.5) * ((k : ℝ) + 0.5))
          * Real.cos ((j : ℝ) * goldenAngle - (k : ℝ) * goldenAngle)) :
    S / 2 ≤ dist2 (off5 S j) (off5 S k) := by
  rw [off5_eq S j hj, off5_eq S k hk]
  simp only [dist2]
  apply le_sqrt_of_sq _ _ (by positivity)
  rw [E_eval S j k]
  have h4 : (S / 2) ^ 2 = S ^ 2 / Real.pi * (Real.pi / 4) := by
    field_simp
    norm_num
  rw [h4]
  exact mul_le_mul_of_nonneg_left hB (by positivity)

theorem dist2_comm (p q : ℝ × ℝ) : dist2 p q = dist2 q p := by
  simp only [dist2]
  congr 1
  ring

/-- Claim C3 (amended): for 5 selected units with computed minimum spacing
`S`, the golden-angle spiral offsets with scale `c = S / sqrt(PI)` are
pairwise no closer than `S / 2` (the code's heuristic scale gives a
nearest-neighbour distance of about `0.87 * S` for `n = 5`, so the
original bound `S` itself does not hold), and the `k = 0` offset is the
one nearest the origin. -/
theorem sunflower_spacing_amended (S : ℝ) (hS : 0 < S) :
    (∀ j k, j < 5 → k < 5 → j ≠ k → S / 2 ≤ dist2 (off5 S j) (off5 S k)) ∧
    (∀ k, k < 5 → 0 < k → dist2 (0, 0) (off5 S 0) < dist2 (0, 0) (off5 S k)) := by
  constructor
  · have core : ∀ j k, j < k → k < 5 → S / 2 ≤ dist2 (off5 S j) (off5 S k) := by
      intro j k hjk hk
      apply le_dist2_of_bound S hS j k (lt_trans hjk hk) hk
      interval_cases k <;> interval_cases j <;> push_cast
      · rw [show (0 : ℝ) * goldenAngle - 1 * goldenAngle = -goldenAngle by ring,
          Real.cos_neg]
        nlinarith [Real.pi_lt_d6,
          mul_nonneg (Real.sqrt_nonneg (((0 : ℝ) + 0.5) * (1 + 0.5)))
            (neg_nonneg.mpr cos_ga_nonpos)]
      · rw [show (0 : ℝ) * goldenAngle - 2 * goldenAngle = -(2 * goldenAngle) by ring,
          Real.cos_neg]
        nlinarith [Real.pi_lt_d6,
          mul_le_mul_of_nonneg_left cos_2ga_le
            (Real.sqrt_nonneg (((0 : ℝ) + 0.5) * (2 + 0.5))),
          sqrt_le_of_sq (((0 : ℝ) + 0.5) * (2 + 0.5)) 1.12 (by norm_num) (by norm_num),
          Real.sqrt_nonneg (((0 : ℝ) + 0.5) * (2 + 0.5))]
      · rw [show (1 : ℝ) * goldenAngle - 2 * goldenAngle = -goldenAngle by ring,
          Real.cos_neg]
        nlinarith [Real.pi_lt_d6,
          mul_nonneg (Real.sqrt_nonneg (((1 : ℝ) + 0.5) * (2 + 0.5)))
            (neg_nonneg.mpr cos_ga_nonpos)]
      · rw [show (0 : ℝ) * goldenAngle - 3 * goldenAngle = -(3 * goldenAngle) by ring,
          Real.cos_neg]
        nlinarith [Real.pi_lt_d6,
          mul_le_mul_of_nonneg_left cos_3ga_bounds.1
            (Real.sqrt_nonneg (((0 : ℝ) + 0.5) * (3 + 0.5))),
          sqrt_le_of_sq (((0 : ℝ) + 0.5) * (3 + 0.5)) 1.33 (by norm_num) (by norm_num),
          Real.sqrt_nonneg (((0 : ℝ) + 0.5) * (3 + 0.5))]
      · rw [show (1 : ℝ) * goldenAngle - 3 * goldenAngle = -(2 * goldenAngle) by ring,
          Real.cos_neg]
        nlinarith [Real.pi_lt_d6,
          mul_le_mul_of_nonneg_left cos_2ga_le
            (Real.sqrt_nonneg (((1 : ℝ) + 0.5) * (3 + 0.5))),
          sqrt_le_of_sq (((1 : ℝ) + 0.5) * (3 + 0.5)) 2.3 (by norm_num) (by norm_num),
          Real.sqrt_nonneg (((1 : ℝ) + 0.5) * (3 + 0.5))]
      · rw [show (2 : ℝ) * goldenAngle - 3 * goldenAngle = -goldenAngle by ring,
          Real.cos_neg]
        nlinarith [Real.pi_lt_d6,
          mul_nonneg (Real.sqrt_nonneg (((2 : ℝ) + 0.5) * (3 + 0.5)))
            (neg_nonneg.mpr cos_ga_nonpos)]
      · rw [show (0 : ℝ) * goldenAngle - 4 * goldenAngle = -(4 * goldenAngle) by ring,
          Real.cos_neg]
        nlinarith [Real.pi_lt_d6,
          mul_nonneg (Real.sqrt_nonneg (((0 : ℝ) + 0.5) * (4 + 0.5)))
            (neg_nonneg.mpr cos_4ga_nonpos)]
      · rw [show (1 : ℝ) * goldenAngle - 4 * goldenAngle = -(3 * goldenAngle) by ring,
          Real.cos_neg]
        nlinarith [Real.pi_lt_d6,
          mul_le_mul_of_nonneg_left cos_3ga_bounds.1
            (Real.sqrt_nonneg (((1 : ℝ) + 0.5) * (4 + 0.5))),
          sqrt_le_of_sq (((1 : ℝ) + 0.5) * (4 + 0.5)) 2.6 (by norm_num) (by norm_num),
          Real.sqrt_nonneg (((1 : ℝ) + 0.5) * (4 + 0.5))]
      · rw [show (2 : ℝ) * goldenAngle - 4 * goldenAngle = -(2 * goldenAngle) by ring,
          Real.cos_neg]
        nlinarith [Real.pi_lt_d6,
          mul_le_mul_of_nonneg_left cos_2ga_le
            (Real.sqrt_nonneg (((2 : ℝ) + 0.5) * (4 + 0.5))),
          sqrt_le_of_sq (((2 : ℝ) + 0.5) * (4 + 0.5)) 3.36 (by norm_num) (by norm_num),
          Real.sqrt_nonneg (((2 : ℝ) + 0.5) * (4 + 0.5))]
      · rw [show (3 : ℝ) * goldenAngle - 4 * goldenAngle = -goldenAngle by ring,
          Real.cos_neg]
        nlinarith [Real.pi_lt_d6,
          mul_nonneg (Real.sqrt_nonneg (((3 : ℝ) + 0.5) * (4 + 0.5)))
            (neg_nonneg.mpr cos_ga_nonpos)]
    intro j k hj hk hjk
    rcases lt_or_gt_of_ne hjk with h | h
    · exact core j k h hk
    · rw [dist2_comm]
      exact core k j h hj
  · have horigin : ∀ k : ℕ, k < 5 → dist2 (0, 0) (off5 S k)
        = S / Real.sqrt Real.pi * Real.sqrt ((k : ℝ) + 0.5) := by
      intro k hk
      rw [off5_eq S k hk]
      simp only [dist2]
      have hpc := Real.sin_sq_add_cos_sq ((k : ℝ) * goldenAngle)
      have h1 : ((0 : ℝ) - S / Real.sqrt Real.pi * Real.sqrt ((k : ℝ) + 0.5)
            * Real.cos ((k : ℝ) * goldenAngle)) ^ 2
          + ((0 : ℝ) - S / Real.sqrt Real.pi * Real.sqrt ((k : ℝ) + 0.5)
            * Real.sin ((k : ℝ) * goldenAngle)) ^ 2
          = (S / Real.sqrt Real.pi * Real.sqrt ((k : ℝ) + 0.5)) ^ 2 := by
        linear_combination (S / Real.sqrt Real.pi * Real.sqrt ((k : ℝ) + 0.5)) ^ 2 * hpc
      rw [h1, Real.sqrt_sq (by positivity)]
    intro k hk h0
    rw [horigin 0 (by norm_num), horigin k hk]
    apply mul_lt_mul_of_pos_left
    · apply Real.sqrt_lt_sqrt (by norm_num)
      have : (0 : ℝ) < (k : ℝ) := by exact_mod_cast h0
      push_cast
      linarith
    · have hπ : (0 : ℝ) < Real.sqrt Real.pi := Real.sqrt_pos.mpr Real.pi_pos
      positivity

theorem sunflower_spacing_amended_witness :
    (0 : ℝ) < 2 ∧ (2 : ℝ) / 2 ≤ dist2 (off5 2 0) (off5 2 1) ∧
      dist2 (0, 0) (off5 2 0) < dist2 (0, 0) (off5 2 4) := by
  refine ⟨by norm_num, ?_, ?_⟩
  · exact (sunflower_spacing_amended 2 (by norm_num)).1 0 1
      (by norm_num) (by norm_num) (by norm_num)
  · exact (sunflower_spacing_amended 2 (by norm_num)).2 4 (by norm_num) (by norm_num)

/-- Claim C3, counterexample to the original statement: for 5 selected
default units (radius `0.8`) the computed minimum spacing is
`S = max(1.2, 2*0.8 + 0.4) = 2`, yet offsets `k = 0` and `k = 3` are
strictly closer than `S` (their distance is about `0.87 * S`). -/
theorem sunflower_spacing_counterexample :
    max (1.2 : ℝ) (2 * 0.8 + 0.4) = 2 ∧
      dist2 (off5 2 0) (off5 2 3) < 2 := by
  constructor
  · rw [max_eq_right (by norm_num : (1.2 : ℝ) ≤ 2 * 0.8 + 0.4)]
    norm_num
  · rw [off5_eq 2 0 (by norm_num), off5_eq 2 3 (by norm_num)]
    simp only [dist2]
    rw [Real.sqrt_lt' (by norm_num : (0 : ℝ) < 2)]
    rw [E_eval 2 0 3]
    push_cast
    rw [show (0 : ℝ) * goldenAngle - 3 * goldenAngle = -(3 * goldenAngle) by ring,
      Real.cos_neg]
    have hc := cos_3ga_bounds.2
    have hsq : (1.32 : ℝ) ≤ Real.sqrt (((0 : ℝ) + 0.5) * (3 + 0.5)) :=
      le_sqrt_of_sq _ _ (by norm_num) (by norm_num)
    have hπ1 := Real.pi_gt_d6
    have hπ0 := Real.pi_pos
    rw [div_mul_eq_mul_div, div_lt_iff₀ hπ0]
    nlinarith [mul_le_mul hsq hc (by norm_num)
      (Real.sqrt_nonneg (((0 : ℝ) + 0.5) * (3 + 0.5)))]

/-! ### The `MOVE_SELECTED_TO` handler (`UnitManager.connectTo`) -/

/-- Walk the unit list; the `j`-th selected unit receives
`target + offsets[j]` (commanded height kept), projected out of
obstacles, as its steering target; unselected units are untouched. -/
def assignTargets (offsets : List (ℝ × ℝ)) (target : Vec3)
    (obstacles : List Obstacle) : List Unit → ℕ → List Unit
  | [], _ => []
  | u :: rest, j =>
    if u.selected then
      let off := offsets.getD j (0, 0)
      let t0 : Vec3 := ⟨target.x + off.1, target.y, target.z + off.2⟩
      let t1 := projectOutsideObstacles t0 u.radius obstacles
      { u with target := some t1 } :: assignTargets offsets target obstacles rest (j + 1)
    else u :: assignTargets offsets target obstacles rest j

/-- The `MOVE_SELECTED_TO` command handler: collect selected units, bail
out if there are none, compute spacing from the average radius, generate
the sunflower offsets and assign per-unit targets. -/
def moveSelectedTo (units : List Unit) (obstacles : List Obstacle)
    (target : Vec3) : List Unit :=
  let sel := units.filter (fun u => u.selected)
  if sel.length = 0 then units
  else
    let avgRadius := (sel.map (fun u => u.radius)).sum / sel.length
    let spacing := max 1.2 (2 * avgRadius + 0.4)
    let offsets := sunflowerOffsets sel.length spacing
    assignTargets offsets target obstacles units 0

/-- Claim C8: a `MoveSelectedTo` command dispatched while zero units are
selected is a no-op — the handler returns the unit list unchanged, so no
unit's target, position, velocity or selected flag changes. -/
theorem moveSelectedTo_noop (units : List Unit) (obstacles : List Obstacle)
    (target : Vec3) (h : ∀ u ∈ units, u.selected = false) :
    moveSelectedTo units obstacles target = units := by
  have hfil : units.filter (fun u => u.selected) = [] := by
    rw [List.filter_eq_nil_iff]
    intro u hu
    simp [h u hu]
  simp [moveSelectedTo, hfil]

theorem moveSelectedTo_noop_witness :
    (∀ u ∈ [mkUnit 1 ⟨0, 0, 0⟩, mkUnit 2 ⟨1, 0, 1⟩, mkUnit 3 ⟨2, 0, 2⟩],
      u.selected = false) ∧
    moveSelectedTo [mkUnit 1 ⟨0, 0, 0⟩, mkUnit 2 ⟨1, 0, 1⟩, mkUnit 3 ⟨2, 0, 2⟩]
        [] ⟨10, 0, 10⟩
      = [mkUnit 1 ⟨0, 0, 0⟩, mkUnit 2 ⟨1, 0, 1⟩, mkUnit 3 ⟨2, 0, 2⟩] := by
  have h : ∀ u ∈ [mkUnit 1 ⟨0, 0, 0⟩, mkUnit 2 ⟨1, 0, 1⟩, mkUnit 3 ⟨2, 0, 2⟩],
      u.selected = false := by
    intro u hu
    simp only [List.mem_cons, List.mem_singleton] at hu
    rcases hu with h1 | h1 | h1 | h1 <;> first
      | (subst h1; rfl)
      | exact absurd h1 (List.not_mem_nil u)
  exact ⟨h, moveSelectedTo_noop _ [] _ h⟩

end RTS
